import Mathlib

/-!
# Verification of the Smart FAQ Generator core (`src/faqGenerator.js`)

This file gives a shallow embedding of the FAQ-generation pipeline of the
repository into Lean 4 and proves or refutes the frozen claims about it.

Strings are modelled as `List Char` (JavaScript strings over the ASCII
fragment exercised by the program).  Character classification and case
conversion mirror the JavaScript semantics on that fragment:
`toLowerCase`/`toUpperCase` shift the basic-latin letters, regex classes
`\s`, `\d`, `\w`, `[a-z]`, `[A-Z]`, `[^a-zA-Z0-9\s]` are the usual ASCII
classes.
-/

/-- Strings as lists of characters. -/
abbrev Str := List Char

/-- JavaScript regex class `\s` (ASCII fragment): space, tab, newline,
carriage return, vertical tab, form feed.  Also exactly the set removed
by `String.prototype.trim` on that fragment. -/
def isSpc (c : Char) : Bool :=
  c = ' ' || c = '\t' || c = '\n' || c = '\r' || c.toNat = 11 || c.toNat = 12

/-- ASCII lower-case letter, `[a-z]`. -/
def isLowerA (c : Char) : Bool := 97 ≤ c.toNat && c.toNat ≤ 122

/-- ASCII upper-case letter, `[A-Z]`. -/
def isUpperA (c : Char) : Bool := 65 ≤ c.toNat && c.toNat ≤ 90

/-- ASCII digit, `\d`. -/
def isDigitA (c : Char) : Bool := 48 ≤ c.toNat && c.toNat ≤ 57

/-- JavaScript regex class `\w`: letters, digits and underscore. -/
def isWordC (c : Char) : Bool := isUpperA c || isLowerA c || isDigitA c || c = '_'

/-- ASCII alphanumeric, the class `[a-zA-Z0-9]`. -/
def isAlnumA (c : Char) : Bool := isUpperA c || isLowerA c || isDigitA c

/-- JavaScript `toLowerCase` on the basic-latin fragment. -/
def jsToLower (c : Char) : Char :=
  if 65 ≤ c.toNat && c.toNat ≤ 90 then Char.ofNat (c.toNat + 32) else c

/-- JavaScript `toUpperCase` on the basic-latin fragment. -/
def jsToUpper (c : Char) : Char :=
  if 97 ≤ c.toNat && c.toNat ≤ 122 then Char.ofNat (c.toNat - 32) else c

/-- Lower-case a whole string. -/
def toLowerStr (s : Str) : Str := s.map jsToLower

/-- `String.prototype.trim`: drop whitespace from both ends. -/
def trimStr (s : Str) : Str :=
  (((s.dropWhile isSpc).reverse).dropWhile isSpc).reverse

/-- State-machine core of `text.replace(/\n+/g, ' ')`: the flag records
whether the previous character was a newline (in which case further
newlines of the same run are dropped). -/
def rnlGo : Bool → Str → Str
  | _, [] => []
  | pw, c :: cs =>
    if c = '\n' then
      (if pw then rnlGo true cs else ' ' :: rnlGo true cs)
    else c :: rnlGo false cs

/-- `text.replace(/\n+/g, ' ')`: each maximal run of newlines becomes one
space. -/
def replaceNewlines (s : Str) : Str := rnlGo false s

/-- State-machine core of `text.replace(/\s+/g, ' ')` (whitespace runs
collapse to a single space). -/
def collapseGo : Bool → Str → Str
  | _, [] => []
  | pw, c :: cs =>
    if isSpc c then
      (if pw then collapseGo true cs else ' ' :: collapseGo true cs)
    else c :: collapseGo false cs

/-- State-machine core of `String.prototype.split` on a regex `[d]+` for a
character class `p`: the flag is true while inside a delimiter run (the
piece boundary has already been emitted), `cur` is the reversed current
piece. -/
def splitGo (p : Char → Bool) : Bool → Str → Str → List Str
  | _, cur, [] => [cur.reverse]
  | true, cur, c :: cs =>
    if p c then splitGo p true cur cs else splitGo p false [c] cs
  | false, cur, c :: cs =>
    if p c then cur.reverse :: splitGo p true [] cs
    else splitGo p false (c :: cur) cs

/-- `s.split(/[p]+/)`: split on maximal runs of characters satisfying `p`,
keeping the (possibly empty) pieces before the first and after the last
run, exactly as JavaScript does. -/
def splitOnRuns (p : Char → Bool) (s : Str) : List Str := splitGo p false [] s

/-- Sentence delimiters, the regex class `[.!?]`. -/
def isDelim (c : Char) : Bool := c = '.' || c = '!' || c = '?'

/-- `extractSentences` (faqGenerator.js lines 82-88): replace newline runs
by a space, split on runs of `.`/`!`/`?`, trim each piece, keep pieces of
length `> 20`. -/
def extractSentences (t : Str) : List Str :=
  (((splitOnRuns isDelim (replaceNewlines t)).map trimStr).filter
    (fun s => 20 < s.length))

/-- The stop-word set of the `FAQGenerator` constructor (lines 21-34). -/
def stopWords : List Str :=
  (["a", "an", "the", "is", "are", "was", "were", "be", "been", "being",
    "have", "has", "had", "do", "does", "did", "will", "would", "could",
    "should", "may", "might", "must", "shall", "can", "need", "dare",
    "ought", "used", "to", "of", "in", "for", "on", "with", "at", "by",
    "from", "as", "into", "through", "during", "before", "after", "above",
    "below", "between", "under", "again", "further", "then", "once", "here",
    "there", "when", "where", "why", "how", "all", "each", "few", "more",
    "most", "other", "some", "such", "no", "nor", "not", "only", "own",
    "same", "so", "than", "too", "very", "just", "and", "but", "if", "or",
    "because", "until", "while", "this", "that", "these", "those", "i", "me",
    "my", "myself", "we", "our", "you", "your", "he", "him", "his", "she",
    "her", "it", "its", "they", "them", "their", "what", "which", "who"
   ] : List String).map (fun s => s.data)

/-- The token list of `extractKeywords` before counting (lines 94-97):
lower-case, replace every character outside `[a-zA-Z0-9\s]` by a space,
split on whitespace runs, keep tokens of length `> 3` that are not stop
words. -/
def tokensOf (t : Str) : List Str :=
  ((splitOnRuns isSpc
      ((toLowerStr t).map (fun c => if isAlnumA c || isSpc c then c else ' '))).filter
    (fun w => 3 < w.length && !(stopWords.contains w)))

/-- One step of the frequency count `wordCount[word] = (wordCount[word] || 0) + 1`
on an insertion-ordered association list (JavaScript object with string
keys preserves insertion order for non-index keys). -/
def bump : List (Str × Nat) → Str → List (Str × Nat)
  | [], w => [(w, 1)]
  | (k, n) :: rest, w =>
    if k = w then (k, n + 1) :: rest else (k, n) :: bump rest w

/-- The `wordCount` object as an insertion-ordered association list. -/
def wordCounts (t : Str) : List (Str × Nat) := (tokensOf t).foldl bump []

/-- Numeric value of a digit string. -/
def natOfDigits (s : Str) : Nat := s.foldl (fun n c => n * 10 + (c.toNat - 48)) 0

/-- Whether a string is a JavaScript *array index* key: the canonical
decimal representation of an integer below `2^32 - 1`.  `Object.entries`
lists such keys first, in ascending numeric order, before the remaining
string keys in insertion order. -/
def isArrayIndex (s : Str) : Bool :=
  !s.isEmpty && s.all isDigitA && (s.head? ≠ some '0' || s = ['0'])
    && natOfDigits s < 4294967295

/-- Insertion step for the ascending numeric sort of array-index keys. -/
def insAscIdx (x : Str × Nat) : List (Str × Nat) → List (Str × Nat)
  | [] => [x]
  | y :: ys =>
    if natOfDigits y.1 ≤ natOfDigits x.1 then y :: insAscIdx x ys
    else x :: y :: ys

/-- Ascending numeric sort (insertion sort) of array-index entries. -/
def sortAscIdx (l : List (Str × Nat)) : List (Str × Nat) := l.foldr insAscIdx []

/-- `Object.entries(wordCount)` ordering: array-index keys first in
ascending numeric order, then the other keys in insertion order. -/
def entriesOrder (l : List (Str × Nat)) : List (Str × Nat) :=
  sortAscIdx (l.filter (fun e => isArrayIndex e.1))
    ++ l.filter (fun e => !isArrayIndex e.1)

/-- Stable insertion: an earlier element is placed before the first later
element whose count is not larger. -/
def insDesc (x : Str × Nat) : List (Str × Nat) → List (Str × Nat)
  | [] => [x]
  | y :: ys => if x.2 < y.2 then y :: insDesc x ys else x :: y :: ys

/-- `entries.sort((a, b) => b[1] - a[1])`: a stable sort by descending
count (`Array.prototype.sort` is stable, and a stable descending sort is
uniquely determined). -/
def sortDesc (l : List (Str × Nat)) : List (Str × Nat) := l.foldr insDesc []

/-- `extractKeywords` (lines 93-110): count token frequencies, order the
entries as `Object.entries` does, stably sort by descending count, take
the first 15 keys. -/
def extractKeywords (t : Str) : List Str :=
  ((sortDesc (entriesOrder (wordCounts t))).take 15).map Prod.fst

/-- Greedy repetition parser for the group `(?:\s+[A-Z][a-z]+)*` of the
capitalized-phrase regex: returns the list of consumed repetitions (each
`\s+[A-Z][a-z]+` with maximal runs) and the remaining input.  The fuel
argument only bounds the recursion; every repetition consumes at least
three characters, so `r.length` fuel is always sufficient. -/
def capRepsGo : Nat → Str → (List Str × Str)
  | 0, r => ([], r)
  | fuel + 1, r =>
    let ws := r.takeWhile isSpc
    if ws.isEmpty then ([], r)
    else
      match r.dropWhile isSpc with
      | [] => ([], r)
      | u :: r2 =>
        if isUpperA u && ((r2.head?.map isLowerA).getD false) then
          let lows := r2.takeWhile isLowerA
          let (rs, rest) := capRepsGo fuel (r2.dropWhile isLowerA)
          ((ws ++ u :: lows) :: rs, rest)
        else ([], r)

/-- Scanner for `text.match(/\b[A-Z][a-z]+(?:\s+[A-Z][a-z]+)*\b/g)`:
walks the text carrying the previous character (for the `\b` assertion).
At a boundary followed by `[A-Z][a-z]`, the base word and then the greedy
repetitions are consumed; if the final `\b` fails (a word character
follows the last lower-case run) the regex engine drops the last
repetition (after which a whitespace character follows, so `\b` holds),
or fails entirely when there is no repetition to drop.  Fuel only bounds
the recursion; every step consumes at least one character. -/
def capScanGo : Nat → Option Char → Str → List Str
  | 0, _, _ => []
  | fuel + 1, prev, l =>
    match l with
    | [] => []
    | c :: cs =>
      let bnd := match prev with | none => true | some p => !isWordC p
      if bnd && isUpperA c && ((cs.head?.map isLowerA).getD false) then
        let lows := cs.takeWhile isLowerA
        let r1 := cs.dropWhile isLowerA
        let (reps, rest) := capRepsGo r1.length r1
        if !((rest.head?.map isWordC).getD false) then
          let m := c :: lows ++ reps.flatten
          m :: capScanGo fuel (some (m.getLastD ' ')) rest
        else if !reps.isEmpty then
          let m := c :: lows ++ (reps.dropLast).flatten
          m :: capScanGo fuel (some (m.getLastD ' ')) (reps.getLastD [] ++ rest)
        else capScanGo fuel (some c) cs
      else capScanGo fuel (some c) cs

/-- All matches of the capitalized-phrase regex (line 119-120). -/
def capMatches (t : Str) : List Str := capScanGo (t.length + 1) none t

/-- `identifyTopics` (lines 115-136).  Note that the duplicate check of the
source compares `match.toLowerCase()` against the *original-case* stored
topics with `Array.prototype.includes`. -/
def identifyTopics (t : Str) (keywords : List Str) : List Str :=
  let ms := capMatches t
  let topics := ms.foldl
    (fun ts m =>
      if 3 < m.length && !(ts.contains (toLowerStr m)) then ts ++ [m] else ts)
    []
  let topics2 := (keywords.take 5).foldl
    (fun ts k =>
      if !(ts.any (fun tp => toLowerStr tp == k)) then ts ++ [k] else ts)
    topics
  topics2.take 8

/-- `cleanAnswer` (lines 289-307): collapse whitespace runs, trim,
upper-case the first character, append `.` when the result does not end
in `.`, `!` or `?`; the empty string stays empty. -/
def cleanAnswer (a : Str) : Str :=
  if a.isEmpty then []
  else
    match trimStr (collapseGo false a) with
    | [] => []
    | c :: rest =>
      let cap := jsToUpper c :: rest
      if isDelim (cap.getLastD ' ') then cap else cap ++ ['.']

/-- A generated question-answer pair. -/
structure FAQ where
  question : Str
  answer : Str
deriving DecidableEq, Repr

/-- `Array.prototype.join(sep)`: concatenate with the separator between
consecutive elements (empty list gives the empty string). -/
def joinSep (sep : Str) : List Str → Str
  | [] => []
  | [x] => x
  | x :: y :: ys => x ++ sep ++ joinSep sep (y :: ys)

/-- `String.prototype.includes`: the needle occurs as a contiguous
substring of the haystack. -/
def isSubstr (n : Str) : Str → Bool
  | [] => n.isEmpty
  | c :: t => n.isPrefixOf (c :: t) || isSubstr n t

/-- `sentence.toLowerCase().includes(ind)` for one indicator word. -/
def hasSub (ind : Str) (s : Str) : Bool := isSubstr ind (toLowerStr s)

/-- Whether a sentence contains any indicator of the list (case-insensitive
substring test, as in the five generators). -/
def sentHasAny (inds : List Str) (s : Str) : Bool := inds.any (fun i => hasSub i s)

/-- Alternative test at a fixed position for a word-boundary alternation
regex: some alternative (given lower-case) is a prefix of the lower-cased
suffix and is not followed by a word character. -/
def wordAltAt (alts : List Str) (low : Str) : Bool :=
  alts.any (fun w =>
    w.isPrefixOf low && !(((low.drop w.length).head?.map isWordC).getD false))

/-- Scan of `RegExp.prototype.test` for a `\b(...)\b` alternation: try the
(lower-cased) suffix at every position whose preceding character is not a
word character. -/
def scanBnd (f : Str → Bool) : Option Char → Str → Bool
  | _, [] => false
  | prev, c :: cs =>
    ((match prev with | none => true | some p => !isWordC p)
        && f (toLowerStr (c :: cs)))
      || scanBnd f (some c) cs

/-- The step-sequence alternation of `generateProcessFAQs`:
`first|second|third|then|next|finally` or `step \d+` (a literal space then
one or more digits, the maximal digit run not followed by a word
character). -/
def stepAltAt (low : Str) : Bool :=
  wordAltAt
    (["first", "second", "third", "then", "next", "finally"].map
      (fun s => s.data)) low
  || ("step ".data.isPrefixOf low
      && !((low.drop 5).takeWhile isDigitA).isEmpty
      && !((((low.drop 5).dropWhile isDigitA).head?.map isWordC).getD false))

/-- `stepPattern.test(s)` for `/\b(first|second|third|then|next|finally|step \d+)\b/i`. -/
def stepTest (s : Str) : Bool := scanBnd stepAltAt none s

/-- `/\b(find|locate|access|available|download)\b/i.test(s)`. -/
def locationTest (s : Str) : Bool :=
  scanBnd
    (wordAltAt
      (["find", "locate", "access", "available", "download"].map (fun s => s.data)))
    none s

/-- Interpolation of a possibly-missing string into a template literal:
JavaScript renders `undefined` as the string `"undefined"`. -/
def jsInterp : Option Str → Str
  | none => "undefined".data
  | some s => s

/-- JavaScript `a || b` on possibly-missing strings: `a` unless it is
falsy (missing or empty). -/
def jsOr (a b : Option Str) : Option Str :=
  match a with
  | none => b
  | some s => if s.isEmpty then b else some s

/-- `generateDefinitionFAQs` (lines 141-158): for each of the first three
topics, the first sentence containing it (case-insensitively) yields a
`What is {topic}?` pair. -/
def generateDefinitionFAQs (sentences topics : List Str) : List FAQ :=
  (topics.take 3).filterMap (fun topic =>
    (sentences.find? (fun s => hasSub (toLowerStr topic) s)).map
      (fun s => ⟨"What is ".data ++ topic ++ "?".data, cleanAnswer s⟩))

/-- Process indicator words (line 165). -/
def processIndicators : List Str :=
  (["step", "process", "method", "way", "approach", "procedure", "guide",
    "tutorial", "instruction"] : List String).map (fun s => s.data)

/-- `generateProcessFAQs` (lines 163-195): one `How does {topic} work?`
pair per indicator sentence whose text contains some topic, plus a
`How do I get started with {topics[0]}?` pair when step-like sentences
exist and a topic exists; capped at two pairs. -/
def generateProcessFAQs (sentences topics : List Str) : List FAQ :=
  let part1 := sentences.filterMap (fun s =>
    if sentHasAny processIndicators s then
      (topics.find? (fun tp => hasSub (toLowerStr tp) s)).map
        (fun tp => ⟨"How does ".data ++ tp ++ " work?".data, cleanAnswer s⟩)
    else none)
  let stepSentences := sentences.filter stepTest
  let part2 :=
    if !stepSentences.isEmpty && !topics.isEmpty then
      [⟨"How do I get started with ".data ++ jsInterp topics.head? ++ "?".data,
        cleanAnswer (joinSep ". ".data (stepSentences.take 3))⟩]
    else []
  (part1 ++ part2).take 2

/-- Feature indicator words (line 202). -/
def featureIndicators : List Str :=
  (["feature", "capability", "function", "option", "include", "provide",
    "offer", "support", "enable", "allow"] : List String).map (fun s => s.data)

/-- `generateFeatureFAQs` (lines 200-216). -/
def generateFeatureFAQs (sentences topics : List Str) : List FAQ :=
  let featureSentences := sentences.filter (sentHasAny featureIndicators)
  if !featureSentences.isEmpty && !topics.isEmpty then
    [⟨"What features does ".data ++ jsInterp topics.head? ++ " offer?".data,
      cleanAnswer (joinSep ". ".data (featureSentences.take 2))⟩]
  else []

/-- Benefit indicator words (line 223). -/
def benefitIndicators : List Str :=
  (["benefit", "advantage", "improve", "help", "save", "increase", "reduce",
    "better", "efficient", "effective"] : List String).map (fun s => s.data)

/-- `generateBenefitFAQs` (lines 221-237). -/
def generateBenefitFAQs (sentences topics : List Str) : List FAQ :=
  let benefitSentences := sentences.filter (sentHasAny benefitIndicators)
  if !benefitSentences.isEmpty && !topics.isEmpty then
    [⟨"Why should I use ".data ++ jsInterp topics.head? ++ "?".data,
      cleanAnswer (joinSep ". ".data (benefitSentences.take 2))⟩]
  else []

/-- Can/able indicator words (line 246). -/
def canIndicators : List Str :=
  (["can", "able", "possible", "support", "allow"] : List String).map
    (fun s => s.data)

/-- Require indicator words (line 259). -/
def requireIndicators : List Str :=
  (["require", "need", "must", "necessary", "prerequisite"] : List String).map
    (fun s => s.data)

/-- `generateTopicFAQs` (lines 242-284).  The customize question requires
`topics.length > 1`; the requirements question has no topic guard, so with
no topics the template interpolates `undefined`. -/
def generateTopicFAQs (sentences topics : List Str) : List FAQ :=
  let canSentences := sentences.filter (sentHasAny canIndicators)
  let part1 :=
    if !canSentences.isEmpty && decide (1 < topics.length) then
      [⟨"Can I customize ".data
          ++ jsInterp (jsOr (topics.get? 1) (topics.get? 0)) ++ "?".data,
        cleanAnswer (canSentences.headD [])⟩]
    else []
  let requireSentences := sentences.filter (sentHasAny requireIndicators)
  let part2 :=
    if !requireSentences.isEmpty then
      [⟨"What are the requirements for ".data ++ jsInterp topics.head?
          ++ "?".data,
        cleanAnswer (requireSentences.headD [])⟩]
    else []
  let locationSentences := sentences.filter locationTest
  let part3 :=
    if !locationSentences.isEmpty && !topics.isEmpty then
      [⟨"Where can I find more information about ".data
          ++ jsInterp topics.head? ++ "?".data,
        cleanAnswer (locationSentences.headD [])⟩]
    else []
  (part1 ++ part2 ++ part3).take 3

/-- The question-normalization key of `removeDuplicates` (line 315):
lower-case, keep only `[a-z0-9]`. -/
def normalizeQ (q : Str) : Str :=
  (toLowerStr q).filter (fun c => isLowerA c || isDigitA c)

/-- Recursion of `removeDuplicates` (lines 312-322) with the `seen` set as
a list of already-kept normalized keys. -/
def removeDupGo (seen : List Str) : List FAQ → List FAQ
  | [] => []
  | f :: fs =>
    if seen.contains (normalizeQ f.question) then removeDupGo seen fs
    else f :: removeDupGo (normalizeQ f.question :: seen) fs

/-- `removeDuplicates`: keep the first pair of each normalized question. -/
def removeDuplicates (l : List FAQ) : List FAQ := removeDupGo [] l

/-- The concatenation of the five generators in source order, applied to
the shared sentences/keywords/topics data (lines 47-71). -/
def faqCandidates (t : Str) : List FAQ :=
  let sentences := extractSentences t
  let keywords := extractKeywords t
  let topics := identifyTopics t keywords
  generateDefinitionFAQs sentences topics
    ++ generateProcessFAQs sentences topics
    ++ generateFeatureFAQs sentences topics
    ++ generateBenefitFAQs sentences topics
    ++ generateTopicFAQs sentences topics

/-- `generateFAQs` (lines 42-77) on a string argument: empty or
whitespace-only text yields `[]`; otherwise the candidates are
deduplicated and the first ten survive. -/
def generateFAQs (t : Str) : List FAQ :=
  if t.isEmpty || (trimStr t).isEmpty then []
  else (removeDuplicates (faqCandidates t)).take 10

/-- A JavaScript call-site argument: `undefined`, `null`, some other
non-string value, or a string. -/
inductive JSInput where
  | undef
  | nullv
  | nonString
  | str (s : Str)

/-- `generateFAQs` on an arbitrary argument: the guard
`!text || typeof text !== 'string' || text.trim().length === 0` sends
every non-string value to `[]` (never throwing). -/
def generateFAQsJS : JSInput → List FAQ
  | .str s => generateFAQs s
  | _ => []

/-! ## Specification-side definitions and concrete inputs used by claims -/

/-- Distinct tokens in order of first appearance (the spec's reading of
the `wordCount` key set). -/
def firstSeenDedup (l : List Str) : List Str :=
  l.foldl (fun acc w => if acc.contains w then acc else acc ++ [w]) []

/-- Keyword list as the specification words it: distinct tokens in
first-seen order, stably sorted by descending frequency, first 15. -/
def specKeywordsFirstSeen (t : Str) : List Str :=
  ((sortDesc ((firstSeenDedup (tokensOf t)).map
      (fun w => (w, (tokensOf t).count w)))).take 15).map Prod.fst

/-- Keyword list as amended: before the stable descending sort, the
distinct first-seen tokens are reordered as `Object.entries` does —
array-index-like tokens first in ascending numeric order, the rest in
first-seen order. -/
def specKeywordsAmended (t : Str) : List Str :=
  ((sortDesc (entriesOrder ((firstSeenDedup (tokensOf t)).map
      (fun w => (w, (tokensOf t).count w))))).take 15).map Prod.fst

/-- Replacing every newline by a space (the claim's whitespace
normalization, read character by character). -/
def nlToSpace (t : Str) : Str := t.map (fun c => if c = '\n' then ' ' else c)

/-- The specification's running example text (§8). -/
def exC1 : Str :=
  ("Widgets are great. Widgets help you save time and improve efficiency. "
    ++ "You can customize Widgets easily. "
    ++ "The process requires no special steps.").data

/-- A text whose only topics and answers start with a digit. -/
def exC2 : Str := "12345 products are available for download here today.".data

/-- A text with a sentence over 20 characters but no capitalized phrase
and no qualifying keyword, and a require indicator. -/
def exC9 : Str := "you need it and you need it and you need it now.".data

/-- A text with a can indicator sentence and exactly one topic. -/
def exC8 : Str := "you can use aaaa here and now.".data

/-- A text with two equal-frequency purely numeric tokens, the larger
first. -/
def exC5 : Str := "9999 1111".data

/-- A text repeating one capitalized phrase. -/
def exC6 : Str := "Alpha. Alpha.".data

/-- A text with a capitalized phrase spanning a newline. -/
def exC7 : Str := "Alpha\nBeta is a system used for testing things.".data

/-- A text whose pieces are all at most 20 characters long. -/
def exC4 : Str := "Short. Text here. Ok.".data

/-- A text producing a requirements FAQ, used as a witness input. -/
def exC10 : Str := "you need it and you need it and you need it today.".data

/-! ## Basic lemmas about the character and string primitives -/

theorem toNat_ofNat_of_valid {n : Nat} (h : n.isValidChar) :
    (Char.ofNat n).toNat = n := by
  rw [Char.ofNat, dif_pos h]
  rfl

/-- Upper-casing never produces a lower-case letter. -/
theorem isLowerA_jsToUpper (c : Char) : isLowerA (jsToUpper c) = false := by
  unfold jsToUpper isLowerA
  by_cases h : 97 ≤ c.toNat ∧ c.toNat ≤ 122
  · have hcond : (decide (97 ≤ c.toNat) && decide (c.toNat ≤ 122)) = true := by
      simp [h.1, h.2]
    rw [if_pos hcond, toNat_ofNat_of_valid (Or.inl (by omega))]
    simp only [Bool.and_eq_false_iff, decide_eq_false_iff_not]
    omega
  · have hcond : (decide (97 ≤ c.toNat) && decide (c.toNat ≤ 122)) = false := by
      simp only [Bool.and_eq_false_iff, decide_eq_false_iff_not]
      omega
    rw [if_neg (by simp [hcond])]
    simp only [Bool.and_eq_false_iff, decide_eq_false_iff_not]
    omega

theorem dropWhile_head_not {α : Type} (p : α → Bool) :
    ∀ (l : List α) c cs, l.dropWhile p = c :: cs → p c = false := by
  intro l
  induction l with
  | nil => intro c cs h; simp [List.dropWhile] at h
  | cons a l ih =>
    intro c cs h
    rw [List.dropWhile_cons] at h
    by_cases hp : p a
    · exact ih c cs (by simpa [hp] using h)
    · simp only [hp, if_neg] at h
      cases h
      simpa using hp

theorem mem_dropWhile_of_not {α : Type} (p : α → Bool) (c : α) :
    ∀ l : List α, c ∈ l → p c = false → c ∈ l.dropWhile p := by
  intro l
  induction l with
  | nil => intro h; simp at h
  | cons a l ih =>
    intro hmem hc
    rw [List.dropWhile_cons]
    by_cases hp : p a
    · rcases List.mem_cons.mp hmem with rfl | hmem2
      · rw [hp] at hc; cases hc
      · simpa [hp] using ih hmem2 hc
    · simpa [hp] using hmem

/-- A trimmed nonempty string contains a non-whitespace character. -/
theorem trim_has_nonspc (p : Str) (h : trimStr p ≠ []) :
    ∃ c ∈ trimStr p, isSpc c = false := by
  unfold trimStr at *
  rcases hinner : ((p.dropWhile isSpc).reverse).dropWhile isSpc with _ | ⟨c, cs⟩
  · rw [hinner] at h; simp at h
  · exact ⟨c, by simp, dropWhile_head_not isSpc _ c cs hinner⟩

/-- Collapsing keeps every non-whitespace character. -/
theorem mem_collapseGo (c : Char) (hc : isSpc c = false) :
    ∀ (pw : Bool) (s : Str), c ∈ s → c ∈ collapseGo pw s := by
  intro pw s
  induction s generalizing pw with
  | nil => intro h; simp at h
  | cons a s ih =>
    intro hmem
    rcases List.mem_cons.mp hmem with rfl | hmem2
    · simp only [collapseGo, hc, if_neg, Bool.false_eq_true]
      exact List.mem_cons_self _ _
    · by_cases ha : isSpc a
      · simp only [collapseGo, ha, if_pos]
        by_cases hpw : pw
        · simpa [hpw] using ih true hmem2
        · simp only [hpw, Bool.false_eq_true, if_neg]
          exact List.mem_cons_of_mem _ (ih true hmem2)
      · simp only [collapseGo, ha, Bool.false_eq_true, if_neg]
        exact List.mem_cons_of_mem _ (ih false hmem2)

/-- A string containing a non-whitespace character trims to a nonempty
string. -/
theorem trim_ne_nil_of_mem {c : Char} {s : Str} (hmem : c ∈ s)
    (hc : isSpc c = false) : trimStr s ≠ [] := by
  unfold trimStr
  intro hnil
  have h1 : c ∈ s.dropWhile isSpc := mem_dropWhile_of_not isSpc c s hmem hc
  have h2 : c ∈ ((s.dropWhile isSpc).reverse).dropWhile isSpc :=
    mem_dropWhile_of_not isSpc c _ (by simpa using h1) hc
  rw [List.reverse_eq_nil_iff] at hnil
  rw [hnil] at h2
  simp at h2

/-- The string contains at least one non-whitespace character. -/
def HasNonSpc (s : Str) : Prop := ∃ c ∈ s, isSpc c = false

/-- Shape of a cleaned answer built from text with a non-whitespace
character: nonempty, ends in `.`/`!`/`?`, and its first character is not a
lower-case letter (it has been upper-cased). -/
theorem cleanAnswer_props (a : Str) (h : HasNonSpc a) :
    cleanAnswer a ≠ []
      ∧ (∃ d, (cleanAnswer a).getLast? = some d ∧ isDelim d = true)
      ∧ ∀ h0, (cleanAnswer a).head? = some h0 → isLowerA h0 = false := by
  obtain ⟨c, hmem, hc⟩ := h
  have hane : a ≠ [] := by rintro rfl; simp at hmem
  unfold cleanAnswer
  rw [if_neg (by simpa using hane)]
  have hcol : c ∈ collapseGo false a := mem_collapseGo c hc false a hmem
  have htr : trimStr (collapseGo false a) ≠ [] := trim_ne_nil_of_mem hcol hc
  rcases htrm : trimStr (collapseGo false a) with _ | ⟨x, rest⟩
  · exact absurd htrm htr
  · simp only
    by_cases hdel : isDelim ((jsToUpper x :: rest).getLastD ' ')
    · rw [if_pos hdel]
      refine ⟨by simp, ⟨(jsToUpper x :: rest).getLastD ' ', ?_, hdel⟩, ?_⟩
      · rw [List.getLastD_eq_getLast?]
        rcases hlast : (jsToUpper x :: rest).getLast? with _ | d
        · rw [List.getLast?_eq_none_iff] at hlast; cases hlast
        · rfl
      · intro h0 hh0
        simp only [List.head?_cons, Option.some.injEq] at hh0
        rw [← hh0]
        exact isLowerA_jsToUpper x
    · rw [if_neg hdel]
      refine ⟨by simp, ⟨'.', ?_, by decide⟩, ?_⟩
      · exact List.getLast?_concat _
      · intro h0 hh0
        simp only [List.cons_append, List.head?_cons, Option.some.injEq] at hh0
        rw [← hh0]
        exact isLowerA_jsToUpper x

/-- Every extracted sentence contains a non-whitespace character. -/
theorem extractSentences_nonspc (t : Str) :
    ∀ s ∈ extractSentences t, HasNonSpc s := by
  intro s hs
  unfold extractSentences at hs
  rw [List.mem_filter] at hs
  obtain ⟨hmem, hlen⟩ := hs
  obtain ⟨p, _, rfl⟩ := List.mem_map.mp hmem
  apply trim_has_nonspc
  intro hnil
  rw [hnil] at hlen
  simp at hlen

/-- A nonempty join of strings with non-whitespace characters has a
non-whitespace character. -/
theorem joinSep_nonspc (sep : Str) :
    ∀ l : List Str, (∀ s ∈ l, HasNonSpc s) → l ≠ [] → HasNonSpc (joinSep sep l) := by
  intro l hall hne
  match l with
  | [] => exact absurd rfl hne
  | [x] =>
    obtain ⟨c, hc, hcs⟩ := hall x (by simp)
    exact ⟨c, by simpa [joinSep] using hc, hcs⟩
  | x :: y :: ys =>
    obtain ⟨c, hc, hcs⟩ := hall x (by simp)
    refine ⟨c, ?_, hcs⟩
    simp only [joinSep, List.append_assoc]
    exact List.mem_append_left _ hc

theorem headD_mem {α : Type} (l : List α) (d : α) (h : l ≠ []) : l.headD d ∈ l := by
  cases l with
  | nil => exact absurd rfl h
  | cons x xs => simp

theorem take_ne_nil_of_ne_nil {α : Type} {l : List α} (h : l ≠ []) (n : Nat)
    (hn : 0 < n) : l.take n ≠ [] := by
  cases l with
  | nil => exact absurd rfl h
  | cons x xs =>
    cases n with
    | zero => omega
    | succ m => simp

/-- The answer of every pair produced by a generator is `cleanAnswer` of a
string containing a non-whitespace character, provided all sentences do.
This is the statement for the definition generator. -/
theorem generateDefinitionFAQs_answer (sentences topics : List Str)
    (hgood : ∀ s ∈ sentences, HasNonSpc s) :
    ∀ f ∈ generateDefinitionFAQs sentences topics,
      ∃ a, f.answer = cleanAnswer a ∧ HasNonSpc a := by
  intro f hf
  unfold generateDefinitionFAQs at hf
  obtain ⟨topic, _, hsome⟩ := List.mem_filterMap.mp hf
  obtain ⟨s, hfind, rfl⟩ := Option.map_eq_some'.mp hsome
  exact ⟨s, rfl, hgood s (List.mem_of_find?_eq_some hfind)⟩

/-- Answer sources for the process generator. -/
theorem generateProcessFAQs_answer (sentences topics : List Str)
    (hgood : ∀ s ∈ sentences, HasNonSpc s) :
    ∀ f ∈ generateProcessFAQs sentences topics,
      ∃ a, f.answer = cleanAnswer a ∧ HasNonSpc a := by
  intro f hf
  unfold generateProcessFAQs at hf
  have hf2 := List.take_subset 2 _ hf
  rcases List.mem_append.mp hf2 with h1 | h2
  · obtain ⟨s, hs, hsome⟩ := List.mem_filterMap.mp h1
    by_cases hind : sentHasAny processIndicators s
    · rw [if_pos hind] at hsome
      obtain ⟨tp, _, rfl⟩ := Option.map_eq_some'.mp hsome
      exact ⟨s, rfl, hgood s hs⟩
    · rw [if_neg hind] at hsome
      cases hsome
  · by_cases hcond :
      (!(sentences.filter stepTest).isEmpty && !topics.isEmpty) = true
    · rw [if_pos hcond] at h2
      rcases List.mem_singleton.mp h2 with rfl
      have hne : sentences.filter stepTest ≠ [] := by
        rw [Bool.and_eq_true] at hcond
        simpa using hcond.1
      refine ⟨_, rfl, joinSep_nonspc _ _ ?_ (take_ne_nil_of_ne_nil hne 3 (by omega))⟩
      intro s hs
      exact hgood s (List.filter_subset' _ (List.take_subset 3 _ hs))
    · rw [if_neg hcond] at h2
      simp at h2

/-- Answer sources for the feature generator. -/
theorem generateFeatureFAQs_answer (sentences topics : List Str)
    (hgood : ∀ s ∈ sentences, HasNonSpc s) :
    ∀ f ∈ generateFeatureFAQs sentences topics,
      ∃ a, f.answer = cleanAnswer a ∧ HasNonSpc a := by
  intro f hf
  unfold generateFeatureFAQs at hf
  by_cases hcond :
    (!(sentences.filter (sentHasAny featureIndicators)).isEmpty
      && !topics.isEmpty) = true
  · rw [if_pos hcond] at hf
    rcases List.mem_singleton.mp hf with rfl
    have hne : sentences.filter (sentHasAny featureIndicators) ≠ [] := by
      rw [Bool.and_eq_true] at hcond
      simpa using hcond.1
    refine ⟨_, rfl, joinSep_nonspc _ _ ?_ (take_ne_nil_of_ne_nil hne 2 (by omega))⟩
    intro s hs
    exact hgood s (List.filter_subset' _ (List.take_subset 2 _ hs))
  · rw [if_neg hcond] at hf
    simp at hf

/-- Answer sources for the benefit generator. -/
theorem generateBenefitFAQs_answer (sentences topics : List Str)
    (hgood : ∀ s ∈ sentences, HasNonSpc s) :
    ∀ f ∈ generateBenefitFAQs sentences topics,
      ∃ a, f.answer = cleanAnswer a ∧ HasNonSpc a := by
  intro f hf
  unfold generateBenefitFAQs at hf
  by_cases hcond :
    (!(sentences.filter (sentHasAny benefitIndicators)).isEmpty
      && !topics.isEmpty) = true
  · rw [if_pos hcond] at hf
    rcases List.mem_singleton.mp hf with rfl
    have hne : sentences.filter (sentHasAny benefitIndicators) ≠ [] := by
      rw [Bool.and_eq_true] at hcond
      simpa using hcond.1
    refine ⟨_, rfl, joinSep_nonspc _ _ ?_ (take_ne_nil_of_ne_nil hne 2 (by omega))⟩
    intro s hs
    exact hgood s (List.filter_subset' _ (List.take_subset 2 _ hs))
  · rw [if_neg hcond] at hf
    simp at hf

/-- Answer sources for the general/topic generator. -/
theorem generateTopicFAQs_answer (sentences topics : List Str)
    (hgood : ∀ s ∈ sentences, HasNonSpc s) :
    ∀ f ∈ generateTopicFAQs sentences topics,
      ∃ a, f.answer = cleanAnswer a ∧ HasNonSpc a := by
  intro f hf
  unfold generateTopicFAQs at hf
  have hf2 := List.take_subset 3 _ hf
  have hfilter : ∀ (p : Str → Bool), sentences.filter p ≠ [] →
      ∃ a, cleanAnswer ((sentences.filter p).headD []) = cleanAnswer a
        ∧ HasNonSpc a := by
    intro p hne
    exact ⟨(sentences.filter p).headD [], rfl,
      hgood _ (List.filter_subset' _ (headD_mem _ _ hne))⟩
  rcases List.mem_append.mp hf2 with h12 | h3
  · rcases List.mem_append.mp h12 with h1 | h2
    · by_cases hcond :
        (!(sentences.filter (sentHasAny canIndicators)).isEmpty
          && decide (1 < topics.length)) = true
      · rw [if_pos hcond] at h1
        rcases List.mem_singleton.mp h1 with rfl
        have hne : sentences.filter (sentHasAny canIndicators) ≠ [] := by
          rw [Bool.and_eq_true] at hcond
          simpa using hcond.1
        exact hfilter _ hne
      · rw [if_neg hcond] at h1
        simp at h1
    · by_cases hcond :
        (!(sentences.filter (sentHasAny requireIndicators)).isEmpty) = true
      · rw [if_pos hcond] at h2
        rcases List.mem_singleton.mp h2 with rfl
        exact hfilter _ (by simpa using hcond)
      · rw [if_neg hcond] at h2
        simp at h2
  · by_cases hcond :
      (!(sentences.filter locationTest).isEmpty && !topics.isEmpty) = true
    · rw [if_pos hcond] at h3
      rcases List.mem_singleton.mp h3 with rfl
      have hne : sentences.filter locationTest ≠ [] := by
        rw [Bool.and_eq_true] at hcond
        simpa using hcond.1
      exact hfilter _ hne
    · rw [if_neg hcond] at h3
      simp at h3

/-- Every candidate's answer is a clean of text with a non-whitespace
character. -/
theorem faqCandidates_answer (t : Str) :
    ∀ f ∈ faqCandidates t, ∃ a, f.answer = cleanAnswer a ∧ HasNonSpc a := by
  intro f hf
  unfold faqCandidates at hf
  have hgood := extractSentences_nonspc t
  rcases List.mem_append.mp hf with h1234 | h5
  · rcases List.mem_append.mp h1234 with h123 | h4
    · rcases List.mem_append.mp h123 with h12 | h3
      · rcases List.mem_append.mp h12 with h1 | h2
        · exact generateDefinitionFAQs_answer _ _ hgood f h1
        · exact generateProcessFAQs_answer _ _ hgood f h2
      · exact generateFeatureFAQs_answer _ _ hgood f h3
    · exact generateBenefitFAQs_answer _ _ hgood f h4
  · exact generateTopicFAQs_answer _ _ hgood f h5

/-! ## Lemmas about `removeDuplicates` -/

theorem removeDupGo_subset (seen : List Str) (l : List FAQ) :
    ∀ f ∈ removeDupGo seen l, f ∈ l := by
  induction l generalizing seen with
  | nil => intro f hf; simp [removeDupGo] at hf
  | cons x xs ih =>
    intro f hf
    unfold removeDupGo at hf
    by_cases hx : seen.contains (normalizeQ x.question)
    · rw [if_pos hx] at hf
      exact List.mem_cons_of_mem _ (ih seen f hf)
    · rw [if_neg hx] at hf
      rcases List.mem_cons.mp hf with rfl | hf2
      · exact List.mem_cons_self _ _
      · exact List.mem_cons_of_mem _ (ih _ f hf2)

theorem removeDupGo_keys (seen : List Str) (l : List FAQ) :
    ((removeDupGo seen l).map (fun f => normalizeQ f.question)).Nodup
      ∧ ∀ f ∈ removeDupGo seen l, normalizeQ f.question ∉ seen := by
  induction l generalizing seen with
  | nil => simp [removeDupGo]
  | cons x xs ih =>
    unfold removeDupGo
    by_cases hx : seen.contains (normalizeQ x.question)
    · rw [if_pos hx]
      exact ih seen
    · rw [if_neg hx]
      obtain ⟨ihn, ihs⟩ := ih (normalizeQ x.question :: seen)
      constructor
      · rw [List.map_cons, List.nodup_cons]
        refine ⟨?_, ihn⟩
        intro hmem
        obtain ⟨g, hg, hgq⟩ := List.mem_map.mp hmem
        exact (ihs g hg) (by rw [hgq]; exact List.mem_cons_self _ _)
      · intro f hf
        rcases List.mem_cons.mp hf with rfl | hf2
        · intro hmem
          exact hx (by simpa [List.contains, List.elem_iff] using hmem)
        · intro hmem
          exact (ihs f hf2) (List.mem_cons_of_mem _ hmem)

theorem removeDupGo_find (l : List FAQ) :
    ∀ (seen : List Str) (f : FAQ), f ∈ removeDupGo seen l →
      l.find? (fun g => normalizeQ g.question == normalizeQ f.question) = some f := by
  induction l with
  | nil => intro seen f hf; simp [removeDupGo] at hf
  | cons x xs ih =>
    intro seen f hf
    unfold removeDupGo at hf
    by_cases hx : seen.contains (normalizeQ x.question)
    · rw [if_pos hx] at hf
      have hxmem : normalizeQ x.question ∈ seen := by
        simpa [List.contains, List.elem_iff] using hx
      have hfnot : normalizeQ f.question ∉ seen := (removeDupGo_keys seen xs).2 f hf
      have hbe : (normalizeQ x.question == normalizeQ f.question) = false := by
        rw [beq_eq_false_iff_ne]
        intro heq
        exact hfnot (heq ▸ hxmem)
      have hrw :
          List.find? (fun g => normalizeQ g.question == normalizeQ f.question)
              (x :: xs)
            = List.find? (fun g => normalizeQ g.question == normalizeQ f.question)
              xs :=
        List.find?_cons_of_neg _ (by simp [hbe])
      rw [hrw]
      exact ih seen f hf
    · rw [if_neg hx] at hf
      rcases List.mem_cons.mp hf with rfl | hf2
      · exact List.find?_cons_of_pos _ (by simp)
      · have hfnot : normalizeQ f.question ∉ normalizeQ x.question :: seen :=
          (removeDupGo_keys _ xs).2 f hf2
        have hbe : (normalizeQ x.question == normalizeQ f.question) = false := by
          rw [beq_eq_false_iff_ne]
          intro heq
          exact hfnot (by rw [← heq]; exact List.mem_cons_self _ _)
        have hrw :
            List.find? (fun g => normalizeQ g.question == normalizeQ f.question)
                (x :: xs)
              = List.find? (fun g => normalizeQ g.question == normalizeQ f.question)
                xs :=
          List.find?_cons_of_neg _ (by simp [hbe])
        rw [hrw]
        exact ih _ f hf2

/-! ## Claim theorems -/

/-- C10: every FAQ in the output of `generateFAQs` has a non-empty answer:
each answer derives from extracted sentences (trimmed, longer than 20
characters), so cleaning never yields the empty string. -/
theorem generateFAQs_answers_nonempty (t : Str) :
    ∀ f ∈ generateFAQs t, f.answer ≠ [] := by
  intro f hf
  unfold generateFAQs at hf
  by_cases hg : (t.isEmpty || (trimStr t).isEmpty) = true
  · rw [if_pos hg] at hf
    simp at hf
  · rw [if_neg hg] at hf
    have hf2 : f ∈ faqCandidates t :=
      removeDupGo_subset [] _ f (List.take_subset 10 _ hf)
    obtain ⟨a, ha, hns⟩ := faqCandidates_answer t f hf2
    rw [ha]
    exact (cleanAnswer_props a hns).1

set_option maxRecDepth 4000 in
/-- Witness for C10 at a concrete input. -/
theorem generateFAQs_answers_nonempty_witness :
    (FAQ.mk "What is today?".data
      "You need it and you need it and you need it today.".data).answer ≠ [] :=
  generateFAQs_answers_nonempty exC10 _ (by decide)

/-- C2 (amended): every output answer is non-empty, ends with `.`, `!` or
`?`, and its first character is never a lower-case letter (it has been
upper-cased; when the cleaned text starts with a digit or symbol the first
character is that character, not an upper-case letter). -/
theorem generateFAQs_answers_clean (t : Str) :
    ∀ f ∈ generateFAQs t,
      f.answer ≠ []
        ∧ (∃ d, f.answer.getLast? = some d ∧ (d = '.' ∨ d = '!' ∨ d = '?'))
        ∧ ∀ c, f.answer.head? = some c → isLowerA c = false := by
  intro f hf
  unfold generateFAQs at hf
  by_cases hg : (t.isEmpty || (trimStr t).isEmpty) = true
  · rw [if_pos hg] at hf
    simp at hf
  · rw [if_neg hg] at hf
    have hf2 : f ∈ faqCandidates t :=
      removeDupGo_subset [] _ f (List.take_subset 10 _ hf)
    obtain ⟨a, ha, hns⟩ := faqCandidates_answer t f hf2
    obtain ⟨h1, ⟨d, hd, hdel⟩, h3⟩ := cleanAnswer_props a hns
    rw [ha]
    refine ⟨h1, ⟨d, hd, ?_⟩, h3⟩
    simpa [isDelim, or_assoc] using hdel

set_option maxRecDepth 4000 in
/-- Witness for the amended C2 at a concrete input. -/
theorem generateFAQs_answers_clean_witness :
    (FAQ.mk "What is 12345?".data
        "12345 products are available for download here today.".data).answer ≠ []
      ∧ (∃ d, (FAQ.mk "What is 12345?".data
          "12345 products are available for download here today.".data).answer.getLast?
            = some d ∧ (d = '.' ∨ d = '!' ∨ d = '?'))
      ∧ ∀ c, (FAQ.mk "What is 12345?".data
          "12345 products are available for download here today.".data).answer.head?
            = some c → isLowerA c = false :=
  generateFAQs_answers_clean exC2 _ (by decide)

set_option maxRecDepth 4000 in
/-- C2 (counterexample): on `exC2` some returned answer is non-empty and
does not begin with an upper-case character (it begins with the digit
`1`), refuting the claim that every non-empty answer begins with an
upper-case character. -/
theorem generateFAQs_answers_upper_counterexample :
    (generateFAQs exC2).any
      (fun f => !f.answer.isEmpty && !isUpperA (f.answer.headD ' ')) = true := by
  decide

/-- C1: the output of `generateFAQs` has at most 10 entries, no two
entries share a normalized question key, and every surviving entry is the
first candidate (in generation order Definition, Process, Feature,
Benefit, General) bearing its key — duplicates are dropped and the first
ten of the deduplicated sequence are returned. -/
theorem generateFAQs_unique_bounded (t : Str) :
    (generateFAQs t).length ≤ 10
      ∧ ((generateFAQs t).map (fun f => normalizeQ f.question)).Nodup
      ∧ (∀ f ∈ generateFAQs t,
          (faqCandidates t).find?
            (fun g => normalizeQ g.question == normalizeQ f.question) = some f)
      ∧ generateFAQs t
          = if t.isEmpty || (trimStr t).isEmpty then []
            else (removeDuplicates (faqCandidates t)).take 10 := by
  refine ⟨?_, ?_, ?_, rfl⟩
  · unfold generateFAQs
    by_cases hg : (t.isEmpty || (trimStr t).isEmpty) = true
    · rw [if_pos hg]
      simp
    · rw [if_neg hg]
      exact List.length_take_le 10 _
  · unfold generateFAQs
    by_cases hg : (t.isEmpty || (trimStr t).isEmpty) = true
    · rw [if_pos hg]
      simp
    · rw [if_neg hg]
      rw [List.map_take]
      exact List.Nodup.sublist (List.take_sublist _ _) (removeDupGo_keys [] _).1
  · intro f hf
    unfold generateFAQs at hf
    by_cases hg : (t.isEmpty || (trimStr t).isEmpty) = true
    · rw [if_pos hg] at hf
      simp at hf
    · rw [if_neg hg] at hf
      exact removeDupGo_find _ [] f (List.take_subset 10 _ hf)

set_option maxRecDepth 8000 in
/-- Witness for C1 at the specification example text. -/
theorem generateFAQs_unique_bounded_witness :
    (faqCandidates exC1).find?
      (fun g => normalizeQ g.question
        == normalizeQ (FAQ.mk "Why should I use Widgets?".data
            "Widgets help you save time and improve efficiency.".data).question)
      = some (FAQ.mk "Why should I use Widgets?".data
          "Widgets help you save time and improve efficiency.".data) :=
  (generateFAQs_unique_bounded exC1).2.2.1 _ (by decide)

/-- C3: for every argument that is missing, not a string, or a string that
is empty after trimming, `generateFAQs` returns the empty sequence; in the
total model nothing is thrown, settling the spec's tension in favour of
graceful degradation. -/
theorem generateFAQsJS_invalid_empty :
    (∀ v : JSInput, (match v with | .str _ => False | _ => True) →
        generateFAQsJS v = [])
      ∧ ∀ s : Str, trimStr s = [] → generateFAQsJS (.str s) = [] := by
  constructor
  · intro v hv
    cases v with
    | undef => rfl
    | nullv => rfl
    | nonString => rfl
    | str s => cases hv
  · intro s hs
    show generateFAQs s = []
    unfold generateFAQs
    rw [if_pos (by simp [hs])]

/-- Witness for C3: a non-string argument and a whitespace-only string. -/
theorem generateFAQsJS_invalid_empty_witness :
    generateFAQsJS .nonString = [] ∧ generateFAQsJS (.str "   ".data) = [] :=
  ⟨generateFAQsJS_invalid_empty.1 .nonString trivial,
    generateFAQsJS_invalid_empty.2 _ (by decide)⟩

theorem generateDefinitionFAQs_nil (topics : List Str) :
    generateDefinitionFAQs [] topics = [] := by
  unfold generateDefinitionFAQs
  rw [List.filterMap_eq_nil_iff]
  intro topic _
  simp [List.find?]

theorem generateProcessFAQs_nil (topics : List Str) :
    generateProcessFAQs [] topics = [] := by
  simp [generateProcessFAQs]

theorem generateFeatureFAQs_nil (topics : List Str) :
    generateFeatureFAQs [] topics = [] := by
  simp [generateFeatureFAQs]

theorem generateBenefitFAQs_nil (topics : List Str) :
    generateBenefitFAQs [] topics = [] := by
  simp [generateBenefitFAQs]

theorem generateTopicFAQs_nil (topics : List Str) :
    generateTopicFAQs [] topics = [] := by
  simp [generateTopicFAQs]

/-- C4: when no piece of the sentence segmentation (newline runs replaced
by a space, split on `[.!?]` runs, trimmed) is longer than 20 characters,
`generateFAQs` returns the empty sequence: every category generator emits
nothing without sentences, whatever the topics and keywords are. -/
theorem generateFAQs_no_sentences_empty (t : Str)
    (h : ∀ s ∈ (splitOnRuns isDelim (replaceNewlines t)).map trimStr,
        s.length ≤ 20) :
    generateFAQs t = [] := by
  have hsent : extractSentences t = [] := by
    unfold extractSentences
    rw [List.filter_eq_nil_iff]
    intro s hs
    simpa using Nat.not_lt.mpr (h s hs)
  unfold generateFAQs
  by_cases hg : (t.isEmpty || (trimStr t).isEmpty) = true
  · rw [if_pos hg]
  · rw [if_neg hg]
    unfold faqCandidates
    rw [hsent]
    simp only [generateDefinitionFAQs_nil, generateProcessFAQs_nil,
      generateFeatureFAQs_nil, generateBenefitFAQs_nil, generateTopicFAQs_nil,
      List.append_nil]
    rfl

/-- Witness for C4 at a concrete input with only short pieces. -/
theorem generateFAQs_no_sentences_empty_witness : generateFAQs exC4 = [] :=
  generateFAQs_no_sentences_empty exC4 (by decide)

set_option maxRecDepth 4000 in
/-- C6 (code evaluated at the failing input): repeating one capitalized
phrase yields two identical topic entries, because the source compares the
lower-cased match against the original-case stored topics, so the
case-insensitive deduplication never fires. -/
theorem identifyTopics_duplicate_eval :
    identifyTopics exC6 (extractKeywords exC6) = ["Alpha".data, "Alpha".data] := by
  decide

set_option maxRecDepth 4000 in
/-- C8 (counterexample): a text with a can-indicator sentence and exactly
one topic produces no customize FAQ at all — the source requires
`topics.length > 1`, not "at least one topic". -/
theorem customize_single_topic_counterexample :
    generateFAQs exC8
        = [FAQ.mk "What is aaaa?".data "You can use aaaa here and now.".data]
      ∧ (extractSentences exC8).filter (sentHasAny canIndicators) ≠ []
      ∧ (identifyTopics exC8 (extractKeywords exC8)).length = 1 := by
  exact ⟨by decide, by decide, by decide⟩

/-- C8 (amended): the customize FAQ is emitted only when a can-indicator
sentence exists *and at least two topics exist*; its subject is
`topics[1]` (the `|| topics[0]` fallback cannot fire for a nonempty
second topic), and its answer is the first matching sentence cleaned.  It
is then the first pair the general generator returns. -/
theorem generateTopicFAQs_customize (sentences topics : List Str)
    (h1 : sentences.filter (sentHasAny canIndicators) ≠ [])
    (h2 : 1 < topics.length)
    (h3 : topics.getD 1 [] ≠ []) :
    (generateTopicFAQs sentences topics).head?
      = some (FAQ.mk
          ("Can I customize ".data ++ topics.getD 1 [] ++ "?".data)
          (cleanAnswer ((sentences.filter (sentHasAny canIndicators)).headD []))) := by
  obtain ⟨a, b, l, rfl⟩ : ∃ a b l, topics = a :: b :: l := by
    cases topics with
    | nil => simp at h2
    | cons a rest =>
      cases rest with
      | nil => simp at h2
      | cons b l => exact ⟨a, b, l, rfl⟩
  have hne : (sentences.filter (sentHasAny canIndicators)).isEmpty = false := by
    rcases hl : sentences.filter (sentHasAny canIndicators) with _ | ⟨x, xs⟩
    · exact absurd hl h1
    · rfl
  have hb : b.isEmpty = false := by
    rcases hbe : b with _ | ⟨c, cs⟩
    · exact absurd hbe h3
    · rfl
  simp only [generateTopicFAQs, hne, Bool.not_false, List.length_cons,
    Nat.lt_add_one_iff, Bool.true_and]
  rw [if_pos (by simp)]
  simp [jsOr, jsInterp, hb, List.take_succ_cons, List.head?]

set_option maxRecDepth 4000 in
/-- Witness for the amended C8 at concrete sentences and topics. -/
theorem generateTopicFAQs_customize_witness :
    (generateTopicFAQs ["you can use this one today ok".data]
        ["Aaaa".data, "Bbbb".data]).head?
      = some (FAQ.mk
          ("Can I customize ".data
            ++ (["Aaaa".data, "Bbbb".data] : List Str).getD 1 [] ++ "?".data)
          (cleanAnswer
            (((["you can use this one today ok".data] : List Str).filter
              (sentHasAny canIndicators)).headD []))) :=
  generateTopicFAQs_customize _ _ (by decide) (by decide) (by decide)

set_option maxRecDepth 4000 in
/-- C9 (counterexample): with a require-indicator sentence and no topics
the requirements FAQ is emitted, but its question interpolates the string
`undefined` (JavaScript renders `topics[0]` as `"undefined"`), not an
empty subject: the question `What are the requirements for ?` never
appears. -/
theorem requirements_undefined_counterexample :
    generateFAQs exC9
        = [FAQ.mk "What are the requirements for undefined?".data
            "You need it and you need it and you need it now.".data]
      ∧ identifyTopics exC9 (extractKeywords exC9) = []
      ∧ (extractSentences exC9).filter (sentHasAny requireIndicators) ≠ []
      ∧ ((generateFAQs exC9).map FAQ.question).contains
          "What are the requirements for ?".data = false := by
  exact ⟨by decide, by decide, by decide, by decide⟩

/-- C9 (amended): when a require-indicator sentence exists and the topic
list is empty, the general generator still emits the requirements FAQ,
and its question is `What are the requirements for undefined?` — the
template interpolates the missing `topics[0]` as `undefined`. -/
theorem generateTopicFAQs_requirements_no_topics (sentences : List Str)
    (h : sentences.filter (sentHasAny requireIndicators) ≠ []) :
    generateTopicFAQs sentences []
      = [FAQ.mk "What are the requirements for undefined?".data
          (cleanAnswer
            ((sentences.filter (sentHasAny requireIndicators)).headD []))] := by
  have hne : (sentences.filter (sentHasAny requireIndicators)).isEmpty = false := by
    rcases hl : sentences.filter (sentHasAny requireIndicators) with _ | ⟨x, xs⟩
    · exact absurd hl h
    · rfl
  simp [generateTopicFAQs, hne, jsInterp]

set_option maxRecDepth 4000 in
/-- Witness for the amended C9 at a concrete sentence list. -/
theorem generateTopicFAQs_requirements_no_topics_witness :
    generateTopicFAQs ["we need this thing today right now".data] []
      = [FAQ.mk "What are the requirements for undefined?".data
          (cleanAnswer
            (((["we need this thing today right now".data] : List Str).filter
              (sentHasAny requireIndicators)).headD []))] :=
  generateTopicFAQs_requirements_no_topics _ (by decide)

theorem rnlGo_of_no_newline :
    ∀ (pw : Bool) (l : Str), (∀ c ∈ l, c ≠ '\n') → rnlGo pw l = l := by
  intro pw l
  induction l generalizing pw with
  | nil => intro _; rfl
  | cons c cs ih =>
    intro h
    have hc : c ≠ '\n' := h c (List.mem_cons_self _ _)
    simp only [rnlGo, hc, if_neg, ite_false]
    rw [ih false (fun d hd => h d (List.mem_cons_of_mem _ hd))]

theorem rnlGo_no_newline_output :
    ∀ (pw : Bool) (l : Str) (c : Char), c ∈ rnlGo pw l → c ≠ '\n' := by
  intro pw l
  induction l generalizing pw with
  | nil => intro c h; simp [rnlGo] at h
  | cons a as ih =>
    intro c h
    by_cases ha : a = '\n'
    · rw [show rnlGo pw (a :: as)
          = (if pw then rnlGo true as else ' ' :: rnlGo true as) from by
            simp [rnlGo, ha]] at h
      by_cases hpw : pw
      · exact ih true c (by simpa [hpw] using h)
      · rw [if_neg hpw] at h
        rcases List.mem_cons.mp h with rfl | h2
        · decide
        · exact ih true c h2
    · rw [show rnlGo pw (a :: as) = a :: rnlGo false as from by simp [rnlGo, ha]] at h
      rcases List.mem_cons.mp h with rfl | h2
      · exact ha
      · exact ih false c h2

theorem replaceNewlines_idem (t : Str) :
    replaceNewlines (replaceNewlines t) = replaceNewlines t :=
  rnlGo_of_no_newline false _ (fun c hc => rnlGo_no_newline_output false t c hc)

theorem nlToSpace_of_no_newline (t : Str) (h : ∀ c ∈ t, c ≠ '\n') :
    nlToSpace t = t := by
  unfold nlToSpace
  induction t with
  | nil => rfl
  | cons c cs ih =>
    have hc : c ≠ '\n' := h c (List.mem_cons_self _ _)
    simp only [List.map_cons, hc, if_neg, ite_false]
    rw [ih (fun d hd => h d (List.mem_cons_of_mem _ hd))]

/-- C7 (amended): sentence extraction is invariant under the program's own
newline normalization (collapsing newline runs to a space), and for texts
containing no newline character `generateFAQs` is unchanged by either
normalization; full invariance fails in general because topic phrases may
span newlines (see the counterexample). -/
theorem generateFAQs_newline_invariance (t : Str) :
    extractSentences (replaceNewlines t) = extractSentences t
      ∧ ((∀ c ∈ t, c ≠ '\n') →
          generateFAQs (nlToSpace t) = generateFAQs t
            ∧ generateFAQs (replaceNewlines t) = generateFAQs t) := by
  constructor
  · unfold extractSentences
    rw [replaceNewlines_idem]
  · intro h
    constructor
    · rw [nlToSpace_of_no_newline t h]
    · rw [show replaceNewlines t = t from rnlGo_of_no_newline false t h]

set_option maxRecDepth 8000 in
/-- Witness for the amended C7 at a newline-free text. -/
theorem generateFAQs_newline_invariance_witness :
    generateFAQs (nlToSpace exC1) = generateFAQs exC1
      ∧ generateFAQs (replaceNewlines exC1) = generateFAQs exC1 :=
  (generateFAQs_newline_invariance exC1).2 (by decide)

set_option maxRecDepth 8000 in
/-- C7 (counterexample): for a text whose capitalized phrase spans a
newline, normalizing newlines to spaces (either one-for-one or collapsing
runs — the two agree on this input) changes the result of `generateFAQs`:
the newline-joined phrase is a topic of the original text only. -/
theorem generateFAQs_newline_counterexample :
    generateFAQs (nlToSpace exC7) ≠ generateFAQs exC7
      ∧ generateFAQs (replaceNewlines exC7) ≠ generateFAQs exC7 := by
  exact ⟨by decide, by decide⟩

/-! ## Lemmas for the keyword pipeline (C5) -/

theorem bump_mem_spec (w : Str) :
    ∀ (ks : List Str) (cf : Str → Nat), w ∈ ks → ks.Nodup →
      bump (ks.map (fun k => (k, cf k))) w
        = ks.map (fun k => (k, if k = w then cf k + 1 else cf k)) := by
  intro ks
  induction ks with
  | nil => intro cf h _; simp at h
  | cons k ks' ih =>
    intro cf hmem hnd
    rw [List.map_cons, List.map_cons]
    by_cases hkw : k = w
    · subst hkw
      have hnot : k ∉ ks' := (List.nodup_cons.mp hnd).1
      show bump ((k, cf k) :: ks'.map (fun k => (k, cf k))) k = _
      rw [show bump ((k, cf k) :: ks'.map (fun j => (j, cf j))) k
          = (k, cf k + 1) :: ks'.map (fun j => (j, cf j)) from by
        simp [bump]]
      rw [if_pos rfl]
      congr 1
      apply List.map_congr_left
      intro j hj
      have : j ≠ k := fun h => hnot (h ▸ hj)
      rw [if_neg this]
    · have hw' : w ∈ ks' := by
        rcases List.mem_cons.mp hmem with rfl | h
        · exact absurd rfl hkw
        · exact h
      rw [show bump ((k, cf k) :: ks'.map (fun j => (j, cf j))) w
          = (k, cf k) :: bump (ks'.map (fun j => (j, cf j))) w from by
        simp [bump, hkw]]
      rw [ih cf hw' (List.nodup_cons.mp hnd).2, if_neg hkw]

theorem bump_not_mem_spec (w : Str) :
    ∀ (ks : List Str) (cf : Str → Nat), w ∉ ks →
      bump (ks.map (fun k => (k, cf k))) w
        = ks.map (fun k => (k, cf k)) ++ [(w, 1)] := by
  intro ks
  induction ks with
  | nil => intro cf _; simp [bump]
  | cons k ks' ih =>
    intro cf hw
    have hkw : k ≠ w := fun h => hw (h ▸ List.mem_cons_self _ _)
    rw [List.map_cons]
    rw [show bump ((k, cf k) :: ks'.map (fun j => (j, cf j))) w
        = (k, cf k) :: bump (ks'.map (fun j => (j, cf j))) w from by
      simp [bump, hkw]]
    rw [ih cf (fun h => hw (List.mem_cons_of_mem _ h))]
    simp

theorem foldl_bump_spec :
    ∀ (toks ks : List Str) (cf : Str → Nat), ks.Nodup →
      (∀ w, w ∉ ks → cf w = 0) →
      List.foldl bump (ks.map (fun k => (k, cf k))) toks
        = (List.foldl (fun acc w => if acc.contains w then acc else acc ++ [w])
            ks toks).map (fun k => (k, cf k + toks.count k)) := by
  intro toks
  induction toks with
  | nil => intro ks cf _ _; simp
  | cons w ws ih =>
    intro ks cf hnd hzero
    rw [List.foldl_cons, List.foldl_cons]
    by_cases hw : w ∈ ks
    · have hc : ks.contains w = true := by
        simpa [List.contains] using List.elem_iff.mpr hw
      rw [if_pos hc, bump_mem_spec w ks cf hw hnd]
      rw [ih ks (fun k => if k = w then cf k + 1 else cf k) hnd ?_]
      · congr 1
        funext k
        by_cases hkw : k = w
        · subst hkw
          simp [List.count_cons_self]
          omega
        · rw [if_neg hkw, List.count_cons_of_ne (by simpa using hkw)]
      · intro v hv
        have hvw : v ≠ w := fun h => hv (h ▸ hw)
        simp [hvw, hzero v hv]
    · have hc : ks.contains w = false := by
        rcases hb : ks.contains w with _ | _
        · rfl
        · exact absurd (List.elem_iff.mp (by simpa [List.contains] using hb)) hw
      rw [if_neg (by rw [hc]; exact Bool.false_ne_true)]
      rw [bump_not_mem_spec w ks cf hw]
      have happ : ks.map (fun k => (k, cf k)) ++ [(w, 1)]
          = (ks ++ [w]).map (fun k => (k, if k = w then 1 else cf k)) := by
        rw [List.map_append]
        congr 1
        · apply List.map_congr_left
          intro j hj
          have : j ≠ w := fun h => hw (h ▸ hj)
          rw [if_neg this]
        · simp
      rw [happ]
      rw [ih (ks ++ [w]) (fun k => if k = w then 1 else cf k) ?_ ?_]
      · congr 1
        funext k
        by_cases hkw : k = w
        · subst hkw
          simp [List.count_cons_self, hzero k hw]
          omega
        · rw [if_neg hkw, List.count_cons_of_ne (by simpa using hkw)]
      · rw [List.nodup_append]
        refine ⟨hnd, List.nodup_singleton _, ?_⟩
        intro a ha hb
        rw [List.mem_singleton] at hb
        exact hw (hb ▸ ha)
      · intro v hv
        rw [List.mem_append, List.mem_singleton] at hv
        push_neg at hv
        simp [hv.2, hzero v hv.1]

/-- The `wordCount` object holds exactly the distinct tokens in first-seen
order, each with its total frequency. -/
theorem wordCounts_spec (t : Str) :
    wordCounts t
      = (firstSeenDedup (tokensOf t)).map
          (fun k => (k, (tokensOf t).count k)) := by
  unfold wordCounts firstSeenDedup
  have h := foldl_bump_spec (tokensOf t) [] (fun _ => 0) List.nodup_nil
    (fun _ _ => rfl)
  simpa using h

theorem insAscIdx_perm (x : Str × Nat) :
    ∀ l : List (Str × Nat), List.Perm (insAscIdx x l) (x :: l) := by
  intro l
  induction l with
  | nil => exact List.Perm.refl _
  | cons y ys ih =>
    unfold insAscIdx
    by_cases h : natOfDigits y.1 ≤ natOfDigits x.1
    · rw [if_pos h]
      exact (ih.cons y).trans (List.Perm.swap x y ys)
    · rw [if_neg h]

theorem sortAscIdx_perm : ∀ l : List (Str × Nat), List.Perm (sortAscIdx l) l := by
  intro l
  induction l with
  | nil => exact List.Perm.refl _
  | cons e l ih => exact (insAscIdx_perm e (sortAscIdx l)).trans (ih.cons e)

theorem insDesc_perm (x : Str × Nat) :
    ∀ l : List (Str × Nat), List.Perm (insDesc x l) (x :: l) := by
  intro l
  induction l with
  | nil => exact List.Perm.refl _
  | cons y ys ih =>
    unfold insDesc
    by_cases h : x.2 < y.2
    · rw [if_pos h]
      exact (ih.cons y).trans (List.Perm.swap x y ys)
    · rw [if_neg h]

theorem sortDesc_perm : ∀ l : List (Str × Nat), List.Perm (sortDesc l) l := by
  intro l
  induction l with
  | nil => exact List.Perm.refl _
  | cons e l ih => exact (insDesc_perm e (sortDesc l)).trans (ih.cons e)

theorem entriesOrder_perm (l : List (Str × Nat)) :
    List.Perm (entriesOrder l) l := by
  unfold entriesOrder
  exact ((sortAscIdx_perm _).append (List.Perm.refl _)).trans
    (List.filter_append_perm _ l)

theorem insDesc_sorted (x : Str × Nat) :
    ∀ l : List (Str × Nat), l.Pairwise (fun a b => b.2 ≤ a.2) →
      (insDesc x l).Pairwise (fun a b => b.2 ≤ a.2) := by
  intro l
  induction l with
  | nil => intro _; simp [insDesc]
  | cons y ys ih =>
    intro hp
    rw [List.pairwise_cons] at hp
    obtain ⟨hy, hys⟩ := hp
    unfold insDesc
    by_cases h : x.2 < y.2
    · rw [if_pos h]
      rw [List.pairwise_cons]
      refine ⟨?_, ih hys⟩
      intro a ha
      rcases List.mem_cons.mp ((insDesc_perm x ys).mem_iff.mp ha) with rfl | ha2
      · exact Nat.le_of_lt h
      · exact hy a ha2
    · rw [if_neg h]
      rw [List.pairwise_cons]
      refine ⟨?_, List.pairwise_cons.mpr ⟨hy, hys⟩⟩
      intro a ha
      rcases List.mem_cons.mp ha with rfl | ha2
      · exact Nat.le_of_not_lt h
      · exact Nat.le_trans (hy a ha2) (Nat.le_of_not_lt h)

theorem sortDesc_sorted (l : List (Str × Nat)) :
    (sortDesc l).Pairwise (fun a b => b.2 ≤ a.2) := by
  induction l with
  | nil => simp [sortDesc]
  | cons e l ih => exact insDesc_sorted e (sortDesc l) ih

theorem firstSeen_go_nodup :
    ∀ (l ks : List Str), ks.Nodup →
      (List.foldl (fun acc w => if acc.contains w then acc else acc ++ [w])
          ks l).Nodup := by
  intro l
  induction l with
  | nil => intro ks h; simpa using h
  | cons w ws ih =>
    intro ks hnd
    rw [List.foldl_cons]
    by_cases hw : w ∈ ks
    · have hc : ks.contains w = true := by
        simpa [List.contains] using List.elem_iff.mpr hw
      rw [if_pos hc]
      exact ih ks hnd
    · have hc : ks.contains w = false := by
        rcases hb : ks.contains w with _ | _
        · rfl
        · exact absurd (List.elem_iff.mp (by simpa [List.contains] using hb)) hw
      rw [if_neg (by rw [hc]; exact Bool.false_ne_true)]
      apply ih
      rw [List.nodup_append]
      refine ⟨hnd, List.nodup_singleton _, ?_⟩
      intro a ha hb
      rw [List.mem_singleton] at hb
      exact hw (hb ▸ ha)

theorem firstSeen_go_subset :
    ∀ (l ks : List Str) (k : Str),
      k ∈ List.foldl (fun acc w => if acc.contains w then acc else acc ++ [w]) ks l →
        k ∈ ks ∨ k ∈ l := by
  intro l
  induction l with
  | nil => intro ks k h; exact Or.inl (by simpa using h)
  | cons w ws ih =>
    intro ks k h
    rw [List.foldl_cons] at h
    by_cases hw : ks.contains w = true
    · rw [if_pos hw] at h
      rcases ih ks k h with h1 | h2
      · exact Or.inl h1
      · exact Or.inr (List.mem_cons_of_mem _ h2)
    · rw [if_neg hw] at h
      rcases ih (ks ++ [w]) k h with h1 | h2
      · rw [List.mem_append, List.mem_singleton] at h1
        rcases h1 with h1a | rfl
        · exact Or.inl h1a
        · exact Or.inr (List.mem_cons_self _ _)
      · exact Or.inr (List.mem_cons_of_mem _ h2)

theorem firstSeenDedup_nodup (l : List Str) : (firstSeenDedup l).Nodup :=
  firstSeen_go_nodup l [] List.nodup_nil

theorem mem_firstSeenDedup {l : List Str} {k : Str} (h : k ∈ firstSeenDedup l) :
    k ∈ l := by
  rcases firstSeen_go_subset l [] k h with h1 | h2
  · simp at h1
  · exact h2

set_option maxRecDepth 4000 in
/-- C5 (counterexample): on two equal-frequency numeric tokens, the larger
first in the text, the keyword ordering is not first-seen: JavaScript
`Object.entries` lists array-index-like keys in ascending numeric order
before the stable sort, so `9999 1111` yields `[1111, 9999]` while the
claim's first-seen tie-break predicts `[9999, 1111]`. -/
theorem extractKeywords_order_counterexample :
    extractKeywords exC5 = ["1111".data, "9999".data]
      ∧ specKeywordsFirstSeen exC5 = ["9999".data, "1111".data]
      ∧ extractKeywords exC5 ≠ specKeywordsFirstSeen exC5 := by
  exact ⟨by decide, by decide, by decide⟩

/-- C5 (amended): keyword extraction returns at most 15 distinct tokens,
each longer than 3 characters and not a stop word, ordered by descending
frequency; among equal frequencies, array-index-like tokens (canonical
decimal integers below `2^32 - 1`) come first in ascending numeric order
— as `Object.entries` lists them — and the remaining tokens keep
first-seen order. -/
theorem extractKeywords_spec (t : Str) :
    extractKeywords t = specKeywordsAmended t
      ∧ (extractKeywords t).length ≤ 15
      ∧ (extractKeywords t).Nodup
      ∧ (∀ k ∈ extractKeywords t, 3 < k.length ∧ k ∉ stopWords)
      ∧ (extractKeywords t).Pairwise
          (fun a b => (tokensOf t).count b ≤ (tokensOf t).count a) := by
  have hwc := wordCounts_spec t
  have hperm : List.Perm (sortDesc (entriesOrder (wordCounts t))) (wordCounts t) :=
    (sortDesc_perm _).trans (entriesOrder_perm _)
  have hkeys : (wordCounts t).map Prod.fst = firstSeenDedup (tokensOf t) := by
    rw [hwc]
    have hgen : ∀ (l : List Str) (f : Str → Nat),
        (l.map (fun k => (k, f k))).map Prod.fst = l := by
      intro l f
      induction l with
      | nil => rfl
      | cons a l ih =>
        simp only [List.map_cons]
        rw [ih]
    exact hgen _ _
  have hmem_words : ∀ k ∈ extractKeywords t, k ∈ firstSeenDedup (tokensOf t) := by
    intro k hk
    unfold extractKeywords at hk
    rw [List.map_take] at hk
    have h1 : k ∈ (sortDesc (entriesOrder (wordCounts t))).map Prod.fst :=
      List.take_subset 15 _ hk
    have h2 := ((hperm.map Prod.fst).mem_iff).mp h1
    rwa [hkeys] at h2
  refine ⟨?_, ?_, ?_, ?_, ?_⟩
  · unfold extractKeywords specKeywordsAmended
    rw [hwc]
  · unfold extractKeywords
    rw [List.length_map]
    exact List.length_take_le _ _
  · unfold extractKeywords
    rw [List.map_take]
    refine List.Nodup.sublist (List.take_sublist _ _) ?_
    exact ((hperm.map Prod.fst).nodup_iff).mpr
      (hkeys ▸ firstSeenDedup_nodup (tokensOf t))
  · intro k hk
    have hk3 : k ∈ tokensOf t := mem_firstSeenDedup (hmem_words k hk)
    unfold tokensOf at hk3
    have hpred := (List.mem_filter.mp hk3).2
    rw [Bool.and_eq_true] at hpred
    refine ⟨by simpa using hpred.1, ?_⟩
    intro hstop
    have hcf : k ∉ stopWords := by simpa using hpred.2
    exact hcf hstop
  · unfold extractKeywords
    rw [List.pairwise_map]
    refine List.Pairwise.sublist (List.take_sublist _ _) ?_
    have hsorted := sortDesc_sorted (entriesOrder (wordCounts t))
    refine List.Pairwise.imp_of_mem ?_ hsorted
    intro a b ha hb hba
    have hca : a.2 = (tokensOf t).count a.1 := by
      have hmem : a ∈ wordCounts t := (hperm.mem_iff).mp ha
      rw [hwc] at hmem
      obtain ⟨k, _, rfl⟩ := List.mem_map.mp hmem
      rfl
    have hcb : b.2 = (tokensOf t).count b.1 := by
      have hmem : b ∈ wordCounts t := (hperm.mem_iff).mp hb
      rw [hwc] at hmem
      obtain ⟨k, _, rfl⟩ := List.mem_map.mp hmem
      rfl
    rw [← hca, ← hcb]
    exact hba

set_option maxRecDepth 4000 in
/-- Witness for the amended C5 at a concrete text and keyword. -/
theorem extractKeywords_spec_witness :
    3 < ("cats".data : Str).length ∧ "cats".data ∉ stopWords :=
  (extractKeywords_spec "cats dog cats here".data).2.2.2.1 _ (by decide)
